import Mathlib

/-!
Shallow embedding of the `ai-agent-stocks` repository's indicator-computation
and LLM-response-parsing pipeline (files `src/stock_analyzer.py` and
`src/market_data.py`), together with proofs settling the frozen claims about
the natural-language specification.

Python strings are modelled as `List Char`; Python floats appearing in the
parser are modelled as exact rationals (`ℚ`), while the pandas float
arithmetic inside the RSI computation, where division by zero produces
`inf`/`NaN`, is modelled by the inductive type `PVal` below.
-/

namespace StockSpec

abbrev PyStr := List Char

def chars (s : String) : PyStr := s.data

/-- The whitespace characters recognised by Python's `str.strip`/`str.split`
(ASCII fragment). -/
def isPySpace (c : Char) : Bool :=
  c = ' ' || c = '\t' || c = '\n' || c = '\r' || c = '\x0b' || c = '\x0c'

/-- Auxiliary splitter: Python `str.split(sep)` behaviour for a one-character
separator class, keeping empty chunks. -/
def splitOnPAux (p : Char → Bool) : PyStr → PyStr → List PyStr
  | [], acc => [acc.reverse]
  | c :: rest, acc =>
    if p c then acc.reverse :: splitOnPAux p rest []
    else splitOnPAux p rest (c :: acc)

def splitOnP (p : Char → Bool) (l : PyStr) : List PyStr := splitOnPAux p l []

/-- Python `text.split('\n')`. -/
def pySplitLines (l : PyStr) : List PyStr := splitOnP (fun c => c = '\n') l

/-- Python `text.split(',')`. -/
def pySplitComma (l : PyStr) : List PyStr := splitOnP (fun c => c = ',') l

/-- Python `text.split()` (split on whitespace runs, discarding empties). -/
def pyWhiteSplit (l : PyStr) : List PyStr :=
  (splitOnP isPySpace l).filter (fun m => m ≠ [])

/-- Python `text.strip()`. -/
def pyStrip (l : PyStr) : PyStr :=
  ((l.dropWhile isPySpace).reverse.dropWhile isPySpace).reverse

/-- Python `text.upper()` (ASCII fragment, matching `Char.toUpper`). -/
def pyUpper (l : PyStr) : PyStr := l.map Char.toUpper

/-- Index of the first occurrence of `sep` as a contiguous substring of `s`. -/
def findSub (sep s : PyStr) : Option ℕ :=
  (List.range (s.length + 1)).find? (fun i => sep.isPrefixOf (s.drop i))

/-- Python `sep in s` (substring containment test). -/
def pyContains (sep s : PyStr) : Bool := (findSub sep s).isSome

/-- Python `s.startswith(pre)`. -/
def pyStartsWith (pre s : PyStr) : Bool := pre.isPrefixOf s

/-- The exceptions the modelled Python code can raise. -/
inductive PyErr where
  | indexError
  | valueError
deriving DecidableEq

/-- Python `s.split(sep)[1]`: the text strictly between the first occurrence
of `sep` and the following occurrence (or the end of the string); raises
`IndexError` when `sep` does not occur in `s`. -/
def splitGet1 (sep s : PyStr) : Except PyErr PyStr :=
  match findSub sep s with
  | none => .error .indexError
  | some i =>
    let rest := s.drop (i + sep.length)
    match findSub sep rest with
    | none => .ok rest
    | some j => .ok (rest.take j)

/-- Python `xs[0]` read on a list. -/
def pyHead {α : Type} : List α → Except PyErr α
  | [] => .error .indexError
  | a :: _ => .ok a

def digitsToNat (l : PyStr) : ℕ :=
  l.foldl (fun a c => 10 * a + (c.toNat - 48)) 0

/-- Python `float(s)` on plain decimal literals (optional sign, digits with an
optional decimal point); other inputs are rejected with `ValueError`. -/
def pyFloatCore (l : PyStr) : Option ℚ :=
  let signed : ℚ × PyStr :=
    match l with
    | '+' :: t => (1, t)
    | '-' :: t => (-1, t)
    | _ => (1, l)
  let sign := signed.1
  let l2 := signed.2
  let intPart := l2.takeWhile Char.isDigit
  let rest := l2.dropWhile Char.isDigit
  match rest with
  | [] => if intPart = [] then none else some (sign * digitsToNat intPart)
  | '.' :: fracRest =>
    let fracPart := fracRest.takeWhile Char.isDigit
    let rest2 := fracRest.dropWhile Char.isDigit
    if rest2 ≠ [] then none
    else if intPart = [] ∧ fracPart = [] then none
    else some (sign * ((digitsToNat intPart : ℚ) +
      (digitsToNat fracPart : ℚ) / (10 ^ fracPart.length)))
  | _ => none

def pyFloatE (l : PyStr) : Except PyErr ℚ :=
  match pyFloatCore l with
  | some q => .ok q
  | none => .error .valueError

/-- Python `max(1, min(10, q))`. -/
def pyClamp (q : ℚ) : ℚ := max 1 (min 10 q)

/-- The fields of the `stock_data` dictionary read by the binary parser. -/
structure StockInfo where
  symbol : PyStr
  current_price : ℚ
deriving DecidableEq

/-- The result dictionary built by `_parse_binary_response`
(`src/stock_analyzer.py` lines 441-452), plus the `raw_response` key attached
by `analyze_stock_for_binary_decision` (line 185).  The nondeterministic
`analysis_timestamp` field is outside the model. -/
structure BinaryResult where
  symbol : PyStr
  current_price : ℚ
  decision : PyStr
  confidence : ℚ
  target_price : Option ℚ
  stop_loss : Option ℚ
  catalyst : PyStr
  timeframe : PyStr
  reasoning : PyStr
  raw_response : PyStr
deriving DecidableEq

def initResult (text : PyStr) (sd : StockInfo) : BinaryResult :=
  { symbol := sd.symbol
    current_price := sd.current_price
    decision := chars "sell"
    confidence := 5
    target_price := none
    stop_loss := none
    catalyst := []
    timeframe := chars "1-5 days"
    reasoning := text
    raw_response := [] }

/-- Embedding of `line.split('DECISION:')[1].strip()` and the BUY/SELL checks
(`src/stock_analyzer.py` lines 459-464). -/
def decisionBranch (line : PyStr) (r : BinaryResult) : Except PyErr BinaryResult :=
  match splitGet1 (chars "DECISION:") line with
  | .error e => .error e
  | .ok s0 =>
    let d := pyStrip s0
    if pyContains (chars "BUY") d then .ok { r with decision := chars "buy" }
    else if pyContains (chars "SELL") d then .ok { r with decision := chars "sell" }
    else .ok r

/-- Embedding of `float(line.split('CONFIDENCE:')[1].strip().split()[0])`
(`src/stock_analyzer.py` line 468). -/
def confValue (line : PyStr) : Except PyErr ℚ :=
  match splitGet1 (chars "CONFIDENCE:") line with
  | .error e => .error e
  | .ok s =>
    match pyHead (pyWhiteSplit (pyStrip s)) with
    | .error e => .error e
    | .ok tok => pyFloatE tok

/-- Embedding of `float(line.split(label)[1].strip().replace('$','').split()[0])`
(`src/stock_analyzer.py` lines 475-477 and 483-485). -/
def priceValue (label line : PyStr) : Except PyErr ℚ :=
  match splitGet1 label line with
  | .error e => .error e
  | .ok s =>
    match pyHead (pyWhiteSplit ((pyStrip s).filter (fun c => c ≠ '$'))) with
    | .error e => .error e
    | .ok tok => pyFloatE tok

/-- One iteration of the `for line in lines` loop of `_parse_binary_response`
(`src/stock_analyzer.py` lines 458-495), with the per-field `try/except pass`
blocks made explicit. -/
def processLineE (line : PyStr) (r : BinaryResult) : Except PyErr BinaryResult :=
  if pyContains (chars "DECISION:") line then
    decisionBranch line r
  else if pyContains (chars "CONFIDENCE:") line then
    match confValue line with
    | .ok q => .ok { r with confidence := pyClamp q }
    | .error _ => .ok r
  else if pyContains (chars "TARGET:") line then
    match priceValue (chars "TARGET:") line with
    | .ok q => .ok { r with target_price := some q }
    | .error _ => .ok r
  else if pyContains (chars "STOP LOSS:") line then
    match priceValue (chars "STOP LOSS:") line with
    | .ok q => .ok { r with stop_loss := some q }
    | .error _ => .ok r
  else if pyContains (chars "CATALYST:") line then
    match splitGet1 (chars "CATALYST:") line with
    | .error e => .error e
    | .ok s => .ok { r with catalyst := (pyStrip s).take 100 }
  else if pyContains (chars "TIMEFRAME:") line then
    match splitGet1 (chars "TIMEFRAME:") line with
    | .error e => .error e
    | .ok s => .ok { r with timeframe := pyStrip s }
  else .ok r

/-- The parser loop.  A raised exception aborts the loop; the partially
updated result together with the exception is what reaches the outer
`try/except` of `_parse_binary_response` (lines 455, 497-498), which logs the
exception and returns the result unchanged. -/
def runLines : List PyStr → BinaryResult → BinaryResult × Option PyErr
  | [], r => (r, none)
  | l :: ls, r =>
    match processLineE l r with
    | .ok r2 => runLines ls r2
    | .error e => (r, some e)

/-- Embedding of `_parse_binary_response` (`src/stock_analyzer.py` lines 439-500). -/
def parse_binary_response (text : PyStr) (sd : StockInfo) : BinaryResult :=
  (runLines (pySplitLines (pyUpper text)) (initResult text sd)).1

/-- The parse-and-attach step of `analyze_stock_for_binary_decision`
(`src/stock_analyzer.py` lines 184-185): the raw LLM text is stored next to
the structured fields. -/
def attachRawResponse (text : PyStr) (sd : StockInfo) : BinaryResult :=
  { parse_binary_response text sd with raw_response := text }

/-- Accumulator for `pyDedup`: `acc` holds the already-emitted elements in
reverse order. -/
def pyDedupAux {α : Type} [DecidableEq α] : List α → List α → List α
  | [], acc => acc.reverse
  | x :: xs, acc => if x ∈ acc then pyDedupAux xs acc else pyDedupAux xs (x :: acc)

/-- Python `dict.fromkeys` based deduplication: keep the first occurrence of
each element, preserving order (`src/stock_analyzer.py` line 117). -/
def pyDedup {α : Type} [DecidableEq α] (l : List α) : List α := pyDedupAux l []

/-- Python `symbol.isalpha()` (ASCII fragment; empty strings are not
alphabetic). -/
def pyIsAlpha (l : PyStr) : Bool := !l.isEmpty && l.all Char.isAlpha

/-- Model of `Config.DEFAULT_STOCKS` with the default environment value
(`src/config.py` line 17). -/
def DEFAULT_STOCKS : List PyStr :=
  [chars "AAPL", chars "GOOGL", chars "MSFT", chars "TSLA", chars "NVDA",
   chars "META", chars "AMZN", chars "SPY", chars "QQQ", chars "IWM"]

/-- The per-line token extraction of `find_top_short_term_stocks`
(`src/stock_analyzer.py` lines 107-114): a line is considered only when it
contains a comma and does not start with "Based on" or "Here are"; its
comma-separated pieces are stripped, uppercased and kept when purely
alphabetic of length 1-5. -/
def validTokensOfLine (line : PyStr) : List PyStr :=
  if pyContains (chars ",") line
      ∧ ¬ pyStartsWith (chars "Based on") line
      ∧ ¬ pyStartsWith (chars "Here are") line then
    ((pySplitComma line).map (fun s => pyUpper (pyStrip s))).filter
      (fun sym => pyIsAlpha sym && decide (1 ≤ sym.length) && decide (sym.length ≤ 5))
  else []

def validTokens (text : PyStr) : List PyStr :=
  (pySplitLines text).flatMap validTokensOfLine

/-- The symbol-extraction part of `find_top_short_term_stocks`
(`src/stock_analyzer.py` lines 106-121): collect valid tokens, deduplicate
keeping first occurrences, truncate to `count`, and fall back to the default
stock list (truncated to `count`) when nothing survives. -/
def extractSymbols (text : PyStr) (count : ℕ) : List PyStr :=
  let symbols := (pyDedup (validTokens text)).take count
  if symbols = [] then DEFAULT_STOCKS.take count else symbols

/-!
### Indicator calculator (`src/market_data.py`, `get_stock_data`)

The pandas float arithmetic of the RSI computation is modelled by `PVal`:
a rational number, positive/negative infinity, or NaN, with IEEE-style
propagation for the operations the source uses.
-/

inductive PVal where
  | nan
  | inf
  | ninf
  | num (q : ℚ)
deriving DecidableEq

def pneg : PVal → PVal
  | .nan => .nan
  | .inf => .ninf
  | .ninf => .inf
  | .num q => .num (-q)

def padd : PVal → PVal → PVal
  | .num a, .num b => .num (a + b)
  | .nan, _ => .nan
  | _, .nan => .nan
  | .inf, .ninf => .nan
  | .ninf, .inf => .nan
  | .inf, _ => .inf
  | _, .inf => .inf
  | .ninf, _ => .ninf
  | _, .ninf => .ninf

def psub (a b : PVal) : PVal := padd a (pneg b)

def pdiv : PVal → PVal → PVal
  | .nan, _ => .nan
  | _, .nan => .nan
  | .num a, .num b =>
    if b ≠ 0 then .num (a / b)
    else if 0 < a then .inf
    else if a < 0 then .ninf
    else .nan
  | .num _, .inf => .num 0
  | .num _, .ninf => .num 0
  | .inf, .num b => if 0 ≤ b then .inf else .ninf
  | .ninf, .num b => if 0 ≤ b then .ninf else .inf
  | _, _ => .nan

/-- Whether a pandas float value is a number lying in `[lo, hi]`; NaN and the
infinities are not. -/
def PVal.inRange (lo hi : ℚ) : PVal → Bool
  | .num q => decide (lo ≤ q) && decide (q ≤ hi)
  | _ => false

/-- Consecutive close-to-close differences, `hist['Close'].diff()` without its
leading NaN entry. -/
def diffs (closes : List ℚ) : List ℚ :=
  List.zipWith (fun a b => a - b) (closes.drop 1) closes

/-- Value of `series.rolling(window=n).mean().iloc[-1]`: the mean of the trailing `n`
entries. -/
def rollMeanLast (n : ℕ) (l : List ℚ) : ℚ := (l.drop (l.length - n)).sum / n

/-- The RSI computation of `get_stock_data` (`src/market_data.py` lines
47-52).  The leading NaN of `diff()` is turned into a gain and a loss of `0`
by `delta.where(delta > 0, 0)` (NaN compares false), which is why `0` heads
both lists. -/
def rsiOfCloses (closes : List ℚ) : PVal :=
  if 14 ≤ closes.length then
    let ds := diffs closes
    let gains := (0 : ℚ) :: ds.map (fun d => if 0 < d then d else 0)
    let losses := (0 : ℚ) :: ds.map (fun d => if d < 0 then -d else 0)
    let avgGain := rollMeanLast 14 gains
    let avgLoss := rollMeanLast 14 losses
    psub (PVal.num 100)
      (pdiv (PVal.num 100) (padd (PVal.num 1) (pdiv (PVal.num avgGain) (PVal.num avgLoss))))
  else PVal.num 50

/-- The derived per-symbol record built by `get_stock_data`
(`src/market_data.py` lines 58-83); fundamentals coming straight from the
external provider are outside the model. -/
structure Snapshot where
  symbol : PyStr
  current_price : ℚ
  previous_close : ℚ
  price_change : ℚ
  price_change_percent : ℚ
  volume : ℕ
  avg_volume : ℚ
  volume_ratio : ℚ
  ma_5 : ℚ
  ma_20 : ℚ
  rsi : PVal
deriving DecidableEq

/-- Embedding of `get_stock_data` (`src/market_data.py` lines 28-87) on a series of
(close, volume) bars.  An empty series yields `none` (line 34); a zero
`previous_close` makes line 63 raise `ZeroDivisionError`, which the outer
`except` turns into `none` as well. -/
def get_stock_data (symbol : PyStr) (bars : List (ℚ × ℕ)) : Option Snapshot :=
  match bars with
  | [] => none
  | _ :: _ =>
    let closes := bars.map Prod.fst
    let current_price := closes.getLast?.getD 0
    let prev_close :=
      if 1 < bars.length then closes.getD (closes.length - 2) 0 else current_price
    if prev_close = 0 then none
    else
      let ma5 := if 5 ≤ bars.length then rollMeanLast 5 closes else current_price
      let ma20 := if 20 ≤ bars.length then rollMeanLast 20 closes else current_price
      let vols : List ℚ := bars.map (fun b => (b.2 : ℚ))
      let current_volume : ℕ := (bars.map Prod.snd).getLast?.getD 0
      let avg_volume :=
        if 20 ≤ bars.length then rollMeanLast 20 vols else vols.getLast?.getD 0
      some
        { symbol := symbol
          current_price := current_price
          previous_close := prev_close
          price_change := current_price - prev_close
          price_change_percent := (current_price - prev_close) / prev_close * 100
          volume := current_volume
          avg_volume := avg_volume
          volume_ratio :=
            if 0 < avg_volume then (current_volume : ℚ) / avg_volume else 1
          ma_5 := ma5
          ma_20 := ma20
          rsi := rsiOfCloses closes }

/-!
### Helper lemmas about the string model
-/

theorem pyContains_iff {sep s : PyStr} : pyContains sep s = true ↔ sep <:+: s := by
  unfold pyContains findSub
  rw [List.find?_isSome]
  constructor
  · rintro ⟨i, _, hp⟩
    have hp2 : sep <+: s.drop i := List.isPrefixOf_iff_prefix.mp hp
    obtain ⟨t, ht⟩ := hp2
    obtain ⟨u, hu⟩ := List.drop_suffix i s
    exact ⟨u, t, by rw [List.append_assoc, ht, hu]⟩
  · rintro ⟨u, v, h⟩
    refine ⟨u.length, List.mem_range.mpr ?_, ?_⟩
    · have hlen := congrArg List.length h
      simp only [List.length_append] at hlen
      omega
    · apply List.isPrefixOf_iff_prefix.mpr
      refine ⟨v, ?_⟩
      rw [← h, List.append_assoc, List.drop_left]

theorem pyContains_mono {sep m l : PyStr} (h1 : pyContains sep m = true)
    (h2 : m <:+: l) : pyContains sep l = true :=
  pyContains_iff.mpr ((pyContains_iff.mp h1).trans h2)

theorem splitOnPAux_mem_part (p : Char → Bool) :
    ∀ (l acc m : PyStr), m ∈ splitOnPAux p l acc → m <:+: (acc.reverse ++ l)
  | [], acc, m => by
    intro hm
    simp only [splitOnPAux, List.mem_singleton] at hm
    subst hm
    rw [List.append_nil]
  | c :: rest, acc, m => by
    intro hm
    simp only [splitOnPAux] at hm
    by_cases hp : p c
    · rw [if_pos hp] at hm
      rcases List.mem_cons.mp hm with h | h
      · subst h
        exact ⟨[], c :: rest, rfl⟩
      · have ih := splitOnPAux_mem_part p rest [] m h
        simp only [List.reverse_nil, List.nil_append] at ih
        refine ih.trans ?_
        exact ((List.suffix_cons c rest).trans (List.suffix_append _ _)).isInfix
    · rw [if_neg hp] at hm
      have ih := splitOnPAux_mem_part p rest (c :: acc) m hm
      simpa only [List.reverse_cons, List.append_assoc, List.singleton_append] using ih

theorem pySplitLines_mem_part {s m : PyStr} (hm : m ∈ pySplitLines s) : m <:+: s := by
  have := splitOnPAux_mem_part (fun c => c = '\n') s [] m hm
  simpa using this

theorem splitGet1_part {sep l m : PyStr} (h : splitGet1 sep l = .ok m) : m <:+: l := by
  unfold splitGet1 at h
  cases h1 : findSub sep l with
  | none => rw [h1] at h; cases h
  | some i =>
    rw [h1] at h
    simp only at h
    cases h2 : findSub sep (l.drop (i + sep.length)) with
    | none =>
      rw [h2] at h
      cases h
      exact (List.drop_suffix _ _).isInfix
    | some j =>
      rw [h2] at h
      cases h
      exact (( List.take_prefix _ _).isInfix).trans (List.drop_suffix _ _).isInfix

theorem splitGet1_ok_contains {sep l m : PyStr} (h : splitGet1 sep l = .ok m) :
    pyContains sep l = true := by
  unfold splitGet1 at h
  cases h1 : findSub sep l with
  | none => rw [h1] at h; cases h
  | some i => unfold pyContains; rw [h1]; rfl

theorem pyContains_splitGet1_ok {sep l : PyStr} (h : pyContains sep l = true) :
    ∃ m, splitGet1 sep l = .ok m := by
  cases h1 : findSub sep l with
  | none => unfold pyContains at h; rw [h1] at h; simp at h
  | some i =>
    cases h2 : findSub sep (l.drop (i + sep.length)) with
    | none =>
      refine ⟨l.drop (i + sep.length), ?_⟩
      unfold splitGet1
      rw [h1]
      simp only [h2]
    | some j =>
      refine ⟨(l.drop (i + sep.length)).take j, ?_⟩
      unfold splitGet1
      rw [h1]
      simp only [h2]

theorem pyStrip_part (l : PyStr) : pyStrip l <:+: l := by
  unfold pyStrip
  have h1 : l.dropWhile isPySpace <:+ l := List.dropWhile_suffix _
  have h2 : ((l.dropWhile isPySpace).reverse.dropWhile isPySpace).reverse
      <+: l.dropWhile isPySpace := by
    obtain ⟨t, ht⟩ := List.dropWhile_suffix (l := (l.dropWhile isPySpace).reverse) isPySpace
    refine ⟨t.reverse, ?_⟩
    have := congrArg List.reverse ht
    simpa [List.reverse_append] using this
  exact h2.isInfix.trans h1.isInfix

theorem pyClamp_mem (q : ℚ) : 1 ≤ pyClamp q ∧ pyClamp q ≤ 10 := by
  unfold pyClamp
  constructor
  · exact le_max_left 1 _
  · exact max_le (by norm_num) (min_le_left 10 q)

/-!
### Helper lemmas about the parser loop
-/

theorem processLineE_ok (line : PyStr) (r : BinaryResult) :
    ∃ r2, processLineE line r = .ok r2 := by
  unfold processLineE
  by_cases h1 : pyContains (chars "DECISION:") line = true
  · rw [if_pos h1]
    unfold decisionBranch
    obtain ⟨m, hm⟩ := pyContains_splitGet1_ok h1
    by_cases hb : pyContains (chars "BUY") (pyStrip m) = true
    · exact ⟨{ r with decision := chars "buy" }, by simp [hm, hb]⟩
    · by_cases hs : pyContains (chars "SELL") (pyStrip m) = true
      · exact ⟨{ r with decision := chars "sell" }, by simp [hm, hb, hs]⟩
      · exact ⟨r, by simp [hm, hb, hs]⟩
  · rw [if_neg h1]
    by_cases h2 : pyContains (chars "CONFIDENCE:") line = true
    · rw [if_pos h2]
      cases confValue line with
      | ok q => exact ⟨_, rfl⟩
      | error e => exact ⟨_, rfl⟩
    · rw [if_neg h2]
      by_cases h3 : pyContains (chars "TARGET:") line = true
      · rw [if_pos h3]
        cases priceValue (chars "TARGET:") line with
        | ok q => exact ⟨_, rfl⟩
        | error e => exact ⟨_, rfl⟩
      · rw [if_neg h3]
        by_cases h4 : pyContains (chars "STOP LOSS:") line = true
        · rw [if_pos h4]
          cases priceValue (chars "STOP LOSS:") line with
          | ok q => exact ⟨_, rfl⟩
          | error e => exact ⟨_, rfl⟩
        · rw [if_neg h4]
          by_cases h5 : pyContains (chars "CATALYST:") line = true
          · rw [if_pos h5]
            obtain ⟨m, hm⟩ := pyContains_splitGet1_ok h5
            exact ⟨{ r with catalyst := (pyStrip m).take 100 }, by simp [hm]⟩
          · rw [if_neg h5]
            by_cases h6 : pyContains (chars "TIMEFRAME:") line = true
            · rw [if_pos h6]
              obtain ⟨m, hm⟩ := pyContains_splitGet1_ok h6
              exact ⟨{ r with timeframe := pyStrip m }, by simp [hm]⟩
            · rw [if_neg h6]
              exact ⟨_, rfl⟩

theorem runLines_no_error : ∀ (ls : List PyStr) (r : BinaryResult),
    (runLines ls r).2 = none
  | [], r => rfl
  | l :: ls, r => by
    obtain ⟨r2, h⟩ := processLineE_ok l r
    unfold runLines
    rw [h]
    exact runLines_no_error ls r2

/-- Complete case analysis of one parser-loop iteration: either the result is
unchanged, or exactly one field was updated, under the guard that triggered
the update. -/
theorem processLineE_cases (line : PyStr) (r r2 : BinaryResult)
    (h : processLineE line r = .ok r2) :
    r2 = r
    ∨ (∃ d, splitGet1 (chars "DECISION:") line = .ok d
        ∧ pyContains (chars "BUY") (pyStrip d) = true
        ∧ r2 = { r with decision := chars "buy" })
    ∨ (∃ d, splitGet1 (chars "DECISION:") line = .ok d
        ∧ pyContains (chars "SELL") (pyStrip d) = true
        ∧ r2 = { r with decision := chars "sell" })
    ∨ (∃ q, confValue line = .ok q
        ∧ pyContains (chars "CONFIDENCE:") line = true
        ∧ r2 = { r with confidence := pyClamp q })
    ∨ (∃ q, r2 = { r with target_price := some q })
    ∨ (∃ q, r2 = { r with stop_loss := some q })
    ∨ (∃ s, splitGet1 (chars "CATALYST:") line = .ok s
        ∧ r2 = { r with catalyst := (pyStrip s).take 100 })
    ∨ (∃ s, splitGet1 (chars "TIMEFRAME:") line = .ok s
        ∧ r2 = { r with timeframe := pyStrip s }) := by
  unfold processLineE at h
  by_cases h1 : pyContains (chars "DECISION:") line = true
  · rw [if_pos h1] at h
    unfold decisionBranch at h
    obtain ⟨m, hm⟩ := pyContains_splitGet1_ok h1
    simp only [hm] at h
    by_cases hb : pyContains (chars "BUY") (pyStrip m) = true
    · rw [if_pos hb] at h
      cases h
      exact Or.inr (Or.inl ⟨m, hm, hb, rfl⟩)
    · rw [if_neg hb] at h
      by_cases hs : pyContains (chars "SELL") (pyStrip m) = true
      · rw [if_pos hs] at h
        cases h
        exact Or.inr (Or.inr (Or.inl ⟨m, hm, hs, rfl⟩))
      · rw [if_neg hs] at h
        cases h
        exact Or.inl rfl
  · rw [if_neg h1] at h
    by_cases h2 : pyContains (chars "CONFIDENCE:") line = true
    · rw [if_pos h2] at h
      cases hc : confValue line with
      | ok q =>
        simp only [hc] at h
        cases h
        exact Or.inr (Or.inr (Or.inr (Or.inl ⟨q, rfl, h2, rfl⟩)))
      | error e =>
        simp only [hc] at h
        cases h
        exact Or.inl rfl
    · rw [if_neg h2] at h
      by_cases h3 : pyContains (chars "TARGET:") line = true
      · rw [if_pos h3] at h
        cases hc : priceValue (chars "TARGET:") line with
        | ok q =>
          simp only [hc] at h
          cases h
          exact Or.inr (Or.inr (Or.inr (Or.inr (Or.inl ⟨q, rfl⟩))))
        | error e =>
          simp only [hc] at h
          cases h
          exact Or.inl rfl
      · rw [if_neg h3] at h
        by_cases h4 : pyContains (chars "STOP LOSS:") line = true
        · rw [if_pos h4] at h
          cases hc : priceValue (chars "STOP LOSS:") line with
          | ok q =>
            simp only [hc] at h
            cases h
            exact Or.inr (Or.inr (Or.inr (Or.inr (Or.inr (Or.inl ⟨q, rfl⟩)))))
          | error e =>
            simp only [hc] at h
            cases h
            exact Or.inl rfl
        · rw [if_neg h4] at h
          by_cases h5 : pyContains (chars "CATALYST:") line = true
          · rw [if_pos h5] at h
            obtain ⟨m, hm⟩ := pyContains_splitGet1_ok h5
            simp only [hm] at h
            cases h
            exact Or.inr (Or.inr (Or.inr (Or.inr (Or.inr (Or.inr (Or.inl ⟨m, hm, rfl⟩))))))
          · rw [if_neg h5] at h
            by_cases h6 : pyContains (chars "TIMEFRAME:") line = true
            · rw [if_pos h6] at h
              obtain ⟨m, hm⟩ := pyContains_splitGet1_ok h6
              simp only [hm] at h
              cases h
              exact Or.inr (Or.inr (Or.inr (Or.inr (Or.inr (Or.inr (Or.inr ⟨m, hm, rfl⟩))))))
            · rw [if_neg h6] at h
              cases h
              exact Or.inl rfl

/-- A parser-loop iteration never changes the identification fields or the
retained raw reasoning text. -/
theorem processLineE_keeps {line : PyStr} {r r2 : BinaryResult}
    (h : processLineE line r = .ok r2) :
    r2.reasoning = r.reasoning ∧ r2.symbol = r.symbol
      ∧ r2.current_price = r.current_price ∧ r2.raw_response = r.raw_response := by
  rcases processLineE_cases line r r2 h with
    rfl | ⟨d, _, _, rfl⟩ | ⟨d, _, _, rfl⟩ | ⟨q, _, _, rfl⟩ | ⟨q, rfl⟩ | ⟨q, rfl⟩
      | ⟨s, _, rfl⟩ | ⟨s, _, rfl⟩ <;> exact ⟨rfl, rfl, rfl, rfl⟩

/-- The decision field only ever holds `"buy"` or `"sell"` once it does. -/
theorem processLineE_decision_shape {line : PyStr} {r r2 : BinaryResult}
    (h : processLineE line r = .ok r2) :
    r2.decision = r.decision ∨ r2.decision = chars "buy" ∨ r2.decision = chars "sell" := by
  rcases processLineE_cases line r r2 h with
    rfl | ⟨d, _, _, rfl⟩ | ⟨d, _, _, rfl⟩ | ⟨q, _, _, rfl⟩ | ⟨q, rfl⟩ | ⟨q, rfl⟩
      | ⟨s, _, rfl⟩ | ⟨s, _, rfl⟩
  · exact Or.inl rfl
  · exact Or.inr (Or.inl rfl)
  · exact Or.inr (Or.inr rfl)
  all_goals exact Or.inl rfl

/-- If neither decision token occurs anywhere in the line, the decision field
is untouched. -/
theorem processLineE_decision_stable {line : PyStr} {r r2 : BinaryResult}
    (h : processLineE line r = .ok r2)
    (hb : pyContains (chars "BUY") line = false)
    (hs : pyContains (chars "SELL") line = false) :
    r2.decision = r.decision := by
  rcases processLineE_cases line r r2 h with
    rfl | ⟨d, hd, htok, rfl⟩ | ⟨d, hd, htok, rfl⟩ | ⟨q, _, _, rfl⟩ | ⟨q, rfl⟩ | ⟨q, rfl⟩
      | ⟨s, _, rfl⟩ | ⟨s, _, rfl⟩
  · rfl
  · have : pyContains (chars "BUY") line = true :=
      pyContains_mono htok ((pyStrip_part d).trans (splitGet1_part hd))
    rw [this] at hb
    cases hb
  · have : pyContains (chars "SELL") line = true :=
      pyContains_mono htok ((pyStrip_part d).trans (splitGet1_part hd))
    rw [this] at hs
    cases hs
  all_goals rfl

/-- If the `CONFIDENCE:` label does not occur in the line, the confidence
field is untouched. -/
theorem processLineE_conf_stable {line : PyStr} {r r2 : BinaryResult}
    (h : processLineE line r = .ok r2)
    (hc : pyContains (chars "CONFIDENCE:") line = false) :
    r2.confidence = r.confidence := by
  rcases processLineE_cases line r r2 h with
    rfl | ⟨d, _, _, rfl⟩ | ⟨d, _, _, rfl⟩ | ⟨q, _, hguard, rfl⟩ | ⟨q, rfl⟩ | ⟨q, rfl⟩
      | ⟨s, _, rfl⟩ | ⟨s, _, rfl⟩
  · rfl
  · rfl
  · rfl
  · rw [hguard] at hc; cases hc
  all_goals rfl

/-- A parser-loop iteration keeps the confidence inside `[1, 10]`. -/
theorem processLineE_conf_range {line : PyStr} {r r2 : BinaryResult}
    (h : processLineE line r = .ok r2)
    (hr : 1 ≤ r.confidence ∧ r.confidence ≤ 10) :
    1 ≤ r2.confidence ∧ r2.confidence ≤ 10 := by
  rcases processLineE_cases line r r2 h with
    rfl | ⟨d, _, _, rfl⟩ | ⟨d, _, _, rfl⟩ | ⟨q, _, _, rfl⟩ | ⟨q, rfl⟩ | ⟨q, rfl⟩
      | ⟨s, _, rfl⟩ | ⟨s, _, rfl⟩
  · exact hr
  · exact hr
  · exact hr
  · exact pyClamp_mem q
  all_goals exact hr

/-- Invariant preservation along the parser loop. -/
theorem runLines_inv (P : BinaryResult → Prop) :
    ∀ (ls : List PyStr) (r : BinaryResult),
    (∀ l ∈ ls, ∀ r1 r2, P r1 → processLineE l r1 = .ok r2 → P r2) →
    P r → P (runLines ls r).1
  | [], _, _, hr => hr
  | l :: ls, r, hstep, hr => by
    unfold runLines
    cases h : processLineE l r with
    | ok r2 =>
      exact runLines_inv P ls r2 (fun m hm => hstep m (List.mem_cons_of_mem l hm))
        (hstep l (List.mem_cons_self l ls) r r2 hr h)
    | error e => exact hr

/-!
### Parse-level invariants
-/

theorem parse_reasoning_eq (text : PyStr) (sd : StockInfo) :
    (parse_binary_response text sd).reasoning = text := by
  unfold parse_binary_response
  have := runLines_inv (fun r => r.reasoning = text)
    (pySplitLines (pyUpper text)) (initResult text sd)
    (fun l _ r1 r2 h1 h2 => by show r2.reasoning = text; rw [(processLineE_keeps h2).1]; exact h1) rfl
  exact this

theorem parse_decision_shape (text : PyStr) (sd : StockInfo) :
    (parse_binary_response text sd).decision = chars "buy"
      ∨ (parse_binary_response text sd).decision = chars "sell" := by
  unfold parse_binary_response
  have := runLines_inv
    (fun r => r.decision = chars "buy" ∨ r.decision = chars "sell")
    (pySplitLines (pyUpper text)) (initResult text sd)
    (fun l _ r1 r2 h1 h2 => by
      show r2.decision = chars "buy" ∨ r2.decision = chars "sell"
      rcases processLineE_decision_shape h2 with h | h | h
      · rw [h]; exact h1
      · exact Or.inl h
      · exact Or.inr h)
    (Or.inr rfl)
  exact this

theorem parse_decision_default (text : PyStr) (sd : StockInfo)
    (hb : pyContains (chars "BUY") (pyUpper text) = false)
    (hs : pyContains (chars "SELL") (pyUpper text) = false) :
    (parse_binary_response text sd).decision = chars "sell" := by
  unfold parse_binary_response
  have := runLines_inv (fun r => r.decision = chars "sell")
    (pySplitLines (pyUpper text)) (initResult text sd)
    (fun l hl r1 r2 h1 h2 => by
      have hinf := pySplitLines_mem_part hl
      have hbl : pyContains (chars "BUY") l = false := by
        cases hcl : pyContains (chars "BUY") l with
        | false => rfl
        | true => rw [pyContains_mono hcl hinf] at hb; cases hb
      have hsl : pyContains (chars "SELL") l = false := by
        cases hcl : pyContains (chars "SELL") l with
        | false => rfl
        | true => rw [pyContains_mono hcl hinf] at hs; cases hs
      show r2.decision = chars "sell"
      rw [processLineE_decision_stable h2 hbl hsl]
      exact h1)
    rfl
  exact this

theorem parse_conf_default (text : PyStr) (sd : StockInfo)
    (hc : pyContains (chars "CONFIDENCE:") (pyUpper text) = false) :
    (parse_binary_response text sd).confidence = 5 := by
  unfold parse_binary_response
  have := runLines_inv (fun r => r.confidence = 5)
    (pySplitLines (pyUpper text)) (initResult text sd)
    (fun l hl r1 r2 h1 h2 => by
      have hinf := pySplitLines_mem_part hl
      have hcl : pyContains (chars "CONFIDENCE:") l = false := by
        cases hcc : pyContains (chars "CONFIDENCE:") l with
        | false => rfl
        | true => rw [pyContains_mono hcc hinf] at hc; cases hc
      show r2.confidence = 5
      rw [processLineE_conf_stable h2 hcl]
      exact h1)
    rfl
  exact this

theorem parse_conf_range (text : PyStr) (sd : StockInfo) :
    1 ≤ (parse_binary_response text sd).confidence
      ∧ (parse_binary_response text sd).confidence ≤ 10 := by
  unfold parse_binary_response
  have := runLines_inv (fun r => 1 ≤ r.confidence ∧ r.confidence ≤ 10)
    (pySplitLines (pyUpper text)) (initResult text sd)
    (fun l _ r1 r2 h1 h2 => processLineE_conf_range h2 h1)
    (by constructor <;> norm_num [initResult])
  exact this

/-!
### Arithmetic helpers for the RSI formula
-/

theorem diffs_all_zero : ∀ (closes : List ℚ),
    (∀ a ∈ closes, ∀ b ∈ closes, a = b) → ∀ d ∈ diffs closes, d = 0
  | [] => by intro _ d hd; simp [diffs] at hd
  | [a] => by intro _ d hd; simp [diffs] at hd
  | a :: b :: t => by
    intro h d hd
    have heq : diffs (a :: b :: t) = (b - a) :: diffs (b :: t) := rfl
    rw [heq] at hd
    rcases List.mem_cons.mp hd with rfl | hd2
    · have hab : b = a := h b (by simp) a (by simp)
      rw [hab]
      ring
    · exact diffs_all_zero (b :: t)
        (fun x hx y hy => h x (List.mem_cons_of_mem a hx) y (List.mem_cons_of_mem a hy))
        d hd2

theorem rollMeanLast_zero {n : ℕ} {l : List ℚ} (h : ∀ x ∈ l, x = 0) :
    rollMeanLast n l = 0 := by
  unfold rollMeanLast
  rw [List.sum_eq_zero (fun x hx => h x (List.mem_of_mem_drop hx))]
  simp

theorem rollMeanLast_nonneg {n : ℕ} {l : List ℚ} (h : ∀ x ∈ l, 0 ≤ x) :
    0 ≤ rollMeanLast n l := by
  unfold rollMeanLast
  apply div_nonneg
  · exact List.sum_nonneg (fun x hx => h x (List.mem_of_mem_drop hx))
  · positivity

/-- Case analysis of `100 - 100/(1 + g/l)` under pandas float semantics, for
nonnegative average gain `g` and average loss `l`. -/
theorem rsiFormula_cases (g l : ℚ) (hg : 0 ≤ g) (hl : 0 ≤ l) :
    (∃ q, psub (PVal.num 100)
        (pdiv (PVal.num 100) (padd (PVal.num 1) (pdiv (PVal.num g) (PVal.num l))))
        = PVal.num q ∧ 0 ≤ q ∧ q ≤ 100)
    ∨ psub (PVal.num 100)
        (pdiv (PVal.num 100) (padd (PVal.num 1) (pdiv (PVal.num g) (PVal.num l))))
        = PVal.nan := by
  by_cases hlz : l = 0
  · subst hlz
    by_cases hgz : g = 0
    · subst hgz
      right
      exact of_decide_eq_true (by with_unfolding_all rfl)
    · have hgpos : 0 < g := lt_of_le_of_ne hg (Ne.symm hgz)
      left
      refine ⟨100, ?_, by norm_num, by norm_num⟩
      have h1 : pdiv (PVal.num g) (PVal.num 0) = PVal.inf := by
        show (if (0:ℚ) ≠ 0 then PVal.num (g / 0)
          else if 0 < g then PVal.inf else if g < 0 then PVal.ninf else PVal.nan) = PVal.inf
        rw [if_neg (by norm_num), if_pos hgpos]
      rw [h1]
      exact of_decide_eq_true (by with_unfolding_all rfl)
  · have hlpos : 0 < l := lt_of_le_of_ne hl (Ne.symm hlz)
    have hq : 0 ≤ g / l := div_nonneg hg hl
    have hpos : (0:ℚ) < 1 + g / l := by linarith
    left
    refine ⟨100 - 100 / (1 + g / l), ?_, ?_, ?_⟩
    · have h1 : pdiv (PVal.num g) (PVal.num l) = PVal.num (g / l) := by
        show (if l ≠ 0 then PVal.num (g / l)
          else if 0 < g then PVal.inf else if g < 0 then PVal.ninf else PVal.nan)
          = PVal.num (g / l)
        rw [if_pos hlz]
      rw [h1]
      show psub (PVal.num 100) (pdiv (PVal.num 100) (PVal.num (1 + g / l))) = _
      have h3 : pdiv (PVal.num 100) (PVal.num (1 + g / l))
          = PVal.num (100 / (1 + g / l)) := by
        show (if (1 + g / l) ≠ 0 then PVal.num (100 / (1 + g / l))
          else if 0 < (100:ℚ) then PVal.inf
          else if (100:ℚ) < 0 then PVal.ninf else PVal.nan)
          = PVal.num (100 / (1 + g / l))
        rw [if_pos hpos.ne']
      rw [h3]
      show PVal.num (100 + -(100 / (1 + g / l))) = _
      exact congrArg PVal.num (by ring)
    · have hle : 100 / (1 + g / l) ≤ 100 := by
        rw [div_le_iff₀ hpos]
        nlinarith
      linarith
    · have h0 : 0 ≤ 100 / (1 + g / l) := by positivity
      linarith

theorem rsi_gains_nonneg (closes : List ℚ) :
    ∀ x ∈ (0 : ℚ) :: (diffs closes).map (fun d => if 0 < d then d else 0), 0 ≤ x := by
  intro x hx
  rcases List.mem_cons.mp hx with rfl | hx2
  · exact le_refl 0
  · obtain ⟨d, _, rfl⟩ := List.mem_map.mp hx2
    by_cases hd : 0 < d
    · rw [if_pos hd]; exact le_of_lt hd
    · rw [if_neg hd]

theorem rsi_losses_nonneg (closes : List ℚ) :
    ∀ x ∈ (0 : ℚ) :: (diffs closes).map (fun d => if d < 0 then -d else 0), 0 ≤ x := by
  intro x hx
  rcases List.mem_cons.mp hx with rfl | hx2
  · exact le_refl 0
  · obtain ⟨d, _, rfl⟩ := List.mem_map.mp hx2
    by_cases hd : d < 0
    · rw [if_pos hd]; linarith
    · rw [if_neg hd]

theorem rsiOfCloses_ge14 (closes : List ℚ) (h14 : 14 ≤ closes.length) :
    rsiOfCloses closes =
      psub (PVal.num 100) (pdiv (PVal.num 100) (padd (PVal.num 1)
        (pdiv
          (PVal.num (rollMeanLast 14
            ((0 : ℚ) :: (diffs closes).map (fun d => if 0 < d then d else 0))))
          (PVal.num (rollMeanLast 14
            ((0 : ℚ) :: (diffs closes).map (fun d => if d < 0 then -d else 0))))))) := by
  unfold rsiOfCloses
  rw [if_pos h14]

/-!
### Claims
-/

/-- A fixed sample `stock_data` record used in the concrete scenarios. -/
def sdSample : StockInfo := ⟨chars "XYZ", 100⟩

/-- C1 counterexample: in the line `"DECISION: SELL NOT BUY"` the token SELL
occurs first (index 10, before BUY at index 19), yet the parsed decision is
`"buy"` — the leftmost token does not determine the decision. -/
theorem decision_leftmost_counterexample :
    (parse_binary_response (chars "DECISION: SELL NOT BUY") sdSample).decision = chars "buy"
    ∧ findSub (chars "SELL") (chars "DECISION: SELL NOT BUY") = some 10
    ∧ findSub (chars "BUY") (chars "DECISION: SELL NOT BUY") = some 19 := by
  refine ⟨?_, ?_, ?_⟩ <;> decide

/-- C1 (amended): on any line carrying the `DECISION:` label, the substring
check for BUY is performed first, so BUY wins whenever it occurs anywhere in
the text after the label, regardless of position; SELL is stored only when
BUY is absent. -/
theorem decision_buy_priority (line d : PyStr) (r : BinaryResult)
    (hd : splitGet1 (chars "DECISION:") line = .ok d) :
    (pyContains (chars "BUY") (pyStrip d) = true →
      processLineE line r = .ok { r with decision := chars "buy" })
    ∧ (pyContains (chars "BUY") (pyStrip d) = false →
       pyContains (chars "SELL") (pyStrip d) = true →
      processLineE line r = .ok { r with decision := chars "sell" }) := by
  have hc : pyContains (chars "DECISION:") line = true := splitGet1_ok_contains hd
  constructor
  · intro hb
    unfold processLineE
    rw [if_pos hc]
    unfold decisionBranch
    simp only [hd]
    rw [if_pos hb]
  · intro hb hs
    unfold processLineE
    rw [if_pos hc]
    unfold decisionBranch
    simp only [hd]
    rw [if_neg (by simp [hb]), if_pos hs]

/-- C1 witness: concrete application of `decision_buy_priority` to the line
`"DECISION: SELL OR BUY"`, where both tokens occur and BUY wins. -/
theorem decision_buy_priority_witness :
    processLineE (chars "DECISION: SELL OR BUY") (initResult [] sdSample)
      = .ok { initResult [] sdSample with decision := chars "buy" } :=
  (decision_buy_priority (chars "DECISION: SELL OR BUY") (chars " SELL OR BUY")
    (initResult [] sdSample) (by with_unfolding_all rfl)).1 (by decide)

/-- C2 counterexample: for 14 equal closes the rolling average gain and loss
are both zero, `rs = 0/0` is NaN, and the RSI is NaN — neither 100 nor inside
`[0, 100]`. -/
theorem rsi_constant_counterexample :
    rsiOfCloses (List.replicate 14 (100 : ℚ)) = PVal.nan
    ∧ PVal.inRange 0 100 (rsiOfCloses (List.replicate 14 (100 : ℚ))) = false := by
  refine ⟨?_, ?_⟩ <;> exact of_decide_eq_true (by with_unfolding_all rfl)

/-- C2 (amended): for fewer than 14 points the RSI is the neutral 50; for a
series of at least 14 points whose closes are all equal the RSI is NaN
(`0/0`), not 100; and in general the RSI is either a number in `[0, 100]` or
NaN. -/
theorem rsi_defaults_amended (closes : List ℚ) :
    (closes.length < 14 → rsiOfCloses closes = PVal.num 50)
    ∧ (14 ≤ closes.length → (∀ a ∈ closes, ∀ b ∈ closes, a = b) →
        rsiOfCloses closes = PVal.nan)
    ∧ ((∃ q, rsiOfCloses closes = PVal.num q ∧ 0 ≤ q ∧ q ≤ 100)
        ∨ rsiOfCloses closes = PVal.nan) := by
  refine ⟨?_, ?_, ?_⟩
  · intro hlt
    unfold rsiOfCloses
    rw [if_neg (by omega)]
  · intro h14 hconst
    rw [rsiOfCloses_ge14 closes h14]
    have hz := diffs_all_zero closes hconst
    have hgain : rollMeanLast 14
        ((0 : ℚ) :: (diffs closes).map (fun d => if 0 < d then d else 0)) = 0 := by
      apply rollMeanLast_zero
      intro x hx
      rcases List.mem_cons.mp hx with rfl | hx2
      · rfl
      · obtain ⟨d, hd, rfl⟩ := List.mem_map.mp hx2
        rw [hz d hd]
        norm_num
    have hloss : rollMeanLast 14
        ((0 : ℚ) :: (diffs closes).map (fun d => if d < 0 then -d else 0)) = 0 := by
      apply rollMeanLast_zero
      intro x hx
      rcases List.mem_cons.mp hx with rfl | hx2
      · rfl
      · obtain ⟨d, hd, rfl⟩ := List.mem_map.mp hx2
        rw [hz d hd]
        norm_num
    rw [hgain, hloss]
    exact of_decide_eq_true (by with_unfolding_all rfl)
  · by_cases h14 : 14 ≤ closes.length
    · rw [rsiOfCloses_ge14 closes h14]
      exact rsiFormula_cases _ _
        (rollMeanLast_nonneg (rsi_gains_nonneg closes))
        (rollMeanLast_nonneg (rsi_losses_nonneg closes))
    · left
      refine ⟨50, ?_, by norm_num, by norm_num⟩
      unfold rsiOfCloses
      rw [if_neg h14]

/-- C2 witness: the amended RSI rules applied at concrete inputs — a one-point
series gives 50, fourteen equal closes give NaN. -/
theorem rsi_defaults_amended_witness :
    rsiOfCloses [(100 : ℚ)] = PVal.num 50
    ∧ rsiOfCloses (List.replicate 14 (100 : ℚ)) = PVal.nan :=
  ⟨(rsi_defaults_amended [(100 : ℚ)]).1 (by decide),
   (rsi_defaults_amended (List.replicate 14 (100 : ℚ))).2.1 (by decide)
     (by intro a ha b hb
         rw [List.eq_of_mem_replicate ha, List.eq_of_mem_replicate hb])⟩

/-- C9: a one-bar series at close 100 yields a snapshot with current and
previous price 100, zero change, both moving averages 100, neutral RSI 50 and
volume ratio 1, for any volume. -/
theorem single_bar_snapshot (sym : PyStr) (v : ℕ) :
    get_stock_data sym [((100 : ℚ), v)] =
      some { symbol := sym, current_price := 100, previous_close := 100,
             price_change := 0, price_change_percent := 0, volume := v,
             avg_volume := (v : ℚ), volume_ratio := 1, ma_5 := 100, ma_20 := 100,
             rsi := PVal.num 50 } := by
  rcases Nat.eq_zero_or_pos v with rfl | hv
  · unfold get_stock_data
    norm_num [rsiOfCloses]
  · have hv' : (0 : ℚ) < (v : ℚ) := by exact_mod_cast hv
    unfold get_stock_data
    norm_num [rsiOfCloses, hv', hv'.ne', div_self]

/-- C9 witness: the single-bar snapshot at volume 7. -/
theorem single_bar_snapshot_witness :
    get_stock_data (chars "XYZ") [((100 : ℚ), 7)] =
      some { symbol := chars "XYZ", current_price := 100, previous_close := 100,
             price_change := 0, price_change_percent := 0, volume := 7,
             avg_volume := 7, volume_ratio := 1, ma_5 := 100, ma_20 := 100,
             rsi := PVal.num 50 } :=
  single_bar_snapshot (chars "XYZ") 7

/-!
### Discovery-mode helper lemmas
-/

theorem pyDedupAux_spec {α : Type} [DecidableEq α] :
    ∀ (l acc : List α), ∃ t, pyDedupAux l acc = acc.reverse ++ t
      ∧ List.Sublist t l ∧ t.Nodup ∧ ∀ a ∈ t, a ∉ acc
  | [], acc =>
    ⟨[], by simp [pyDedupAux], List.nil_sublist _, List.nodup_nil, by simp⟩
  | x :: xs, acc => by
    by_cases hx : x ∈ acc
    · obtain ⟨t, h1, h2, h3, h4⟩ := pyDedupAux_spec xs acc
      refine ⟨t, ?_, h2.trans (List.sublist_cons_self x xs), h3, h4⟩
      show pyDedupAux (x :: xs) acc = acc.reverse ++ t
      rw [pyDedupAux, if_pos hx]
      exact h1
    · obtain ⟨t, h1, h2, h3, h4⟩ := pyDedupAux_spec xs (x :: acc)
      refine ⟨x :: t, ?_, List.Sublist.cons₂ x h2, ?_, ?_⟩
      · show pyDedupAux (x :: xs) acc = acc.reverse ++ x :: t
        rw [pyDedupAux, if_neg hx, h1]
        simp
      · refine List.nodup_cons.mpr ⟨?_, h3⟩
        intro ht
        exact (h4 x ht) (List.mem_cons_self x acc)
      · intro a ha
        rcases List.mem_cons.mp ha with rfl | ha2
        · exact hx
        · exact fun hacc => (h4 a ha2) (List.mem_cons_of_mem x hacc)

theorem pyDedup_sublist {α : Type} [DecidableEq α] (l : List α) :
    List.Sublist (pyDedup l) l := by
  obtain ⟨t, h1, h2, _, _⟩ := pyDedupAux_spec l []
  unfold pyDedup
  rw [h1]
  simpa using h2

theorem pyDedup_nodup {α : Type} [DecidableEq α] (l : List α) : (pyDedup l).Nodup := by
  obtain ⟨t, h1, _, h3, _⟩ := pyDedupAux_spec l []
  unfold pyDedup
  rw [h1]
  simpa using h3

theorem validTokens_shape (text : PyStr) :
    ∀ s ∈ validTokens text, pyIsAlpha s = true ∧ 1 ≤ s.length ∧ s.length ≤ 5 := by
  intro s hs
  unfold validTokens at hs
  obtain ⟨line, _, hs2⟩ := List.mem_flatMap.mp hs
  unfold validTokensOfLine at hs2
  split at hs2
  · have := List.of_mem_filter hs2
    simp only [Bool.and_eq_true, decide_eq_true_eq] at this
    exact ⟨this.1.1, this.1.2, this.2⟩
  · cases hs2

theorem DEFAULT_STOCKS_nodup : DEFAULT_STOCKS.Nodup := by decide

theorem DEFAULT_STOCKS_shape :
    ∀ s ∈ DEFAULT_STOCKS, pyIsAlpha s = true ∧ 1 ≤ s.length ∧ s.length ≤ 5 := by
  decide

/-!
### Remaining claims
-/

/-- C3 counterexample: for the discovery text
`"Here are some picks: AAPL,MSFT,GOOGL"` with count 2 the extraction does NOT
return `[AAPL, MSFT]`. -/
theorem discovery_here_are_counterexample :
    extractSymbols (chars "Here are some picks: AAPL,MSFT,GOOGL") 2
      ≠ [chars "AAPL", chars "MSFT"] := by
  decide

/-- C3 (amended): the only line of that text starts with "Here are", so the
line filter of `find_top_short_term_stocks` skips it, no token survives, and
the result is the default stock list truncated to 2: `[AAPL, GOOGL]`. -/
theorem discovery_here_are_fallback :
    extractSymbols (chars "Here are some picks: AAPL,MSFT,GOOGL") 2
      = [chars "AAPL", chars "GOOGL"]
    ∧ validTokens (chars "Here are some picks: AAPL,MSFT,GOOGL") = []
    ∧ pyStartsWith (chars "Here are")
        (chars "Here are some picks: AAPL,MSFT,GOOGL") = true := by
  refine ⟨?_, ?_, ?_⟩ <;> decide

/-- The LLM-reply scenario text of the specification. -/
def scenarioText : PyStr :=
  chars "DECISION: BUY\nCONFIDENCE: 12\nTARGET: $150.5\nSTOP LOSS: $140\nCATALYST: strong earnings\nTIMEFRAME: 2-3 days"

/-- C4 counterexample: the parser uppercases the whole reply before matching,
so the stored catalyst is not `"strong earnings"` and the stored timeframe is
not `"2-3 days"`. -/
theorem scenario_parse_counterexample :
    (parse_binary_response scenarioText sdSample).catalyst ≠ chars "strong earnings"
    ∧ (parse_binary_response scenarioText sdSample).timeframe ≠ chars "2-3 days" := by
  refine ⟨?_, ?_⟩ <;> exact of_decide_eq_true (by with_unfolding_all rfl)

/-- C4 (amended): the scenario reply parses to decision `"buy"`, confidence
10 (clamped from 12), target price 150.5, stop loss 140, catalyst
`"STRONG EARNINGS"` and timeframe `"2-3 DAYS"` (both uppercased). -/
theorem scenario_parse_amended :
    (parse_binary_response scenarioText sdSample).decision = chars "buy"
    ∧ (parse_binary_response scenarioText sdSample).confidence = 10
    ∧ (parse_binary_response scenarioText sdSample).target_price = some (150.5 : ℚ)
    ∧ (parse_binary_response scenarioText sdSample).stop_loss = some (140 : ℚ)
    ∧ (parse_binary_response scenarioText sdSample).catalyst = chars "STRONG EARNINGS"
    ∧ (parse_binary_response scenarioText sdSample).timeframe = chars "2-3 DAYS" := by
  refine ⟨?_, ?_, ?_, ?_, ?_, ?_⟩ <;> exact of_decide_eq_true (by with_unfolding_all rfl)

/-- C5: the parsed decision is always `"buy"` or `"sell"`, never absent; when
the uppercased reply contains neither token the decision is the default
`"sell"`, and when it contains no `CONFIDENCE:` label the confidence is the
default 5. -/
theorem decision_always_defined (text : PyStr) (sd : StockInfo) :
    ((parse_binary_response text sd).decision = chars "buy"
      ∨ (parse_binary_response text sd).decision = chars "sell")
    ∧ (pyContains (chars "BUY") (pyUpper text) = false →
       pyContains (chars "SELL") (pyUpper text) = false →
        (parse_binary_response text sd).decision = chars "sell")
    ∧ (pyContains (chars "CONFIDENCE:") (pyUpper text) = false →
        (parse_binary_response text sd).confidence = 5) :=
  ⟨parse_decision_shape text sd,
   fun hb hs => parse_decision_default text sd hb hs,
   fun hc => parse_conf_default text sd hc⟩

/-- C5 witness: the reply `"no recommendation here"` contains neither token
and no confidence label, so the result is SELL with confidence 5. -/
theorem decision_always_defined_witness :
    (parse_binary_response (chars "no recommendation here") sdSample).decision
      = chars "sell"
    ∧ (parse_binary_response (chars "no recommendation here") sdSample).confidence = 5 :=
  ⟨(decision_always_defined (chars "no recommendation here") sdSample).2.1
      (by decide) (by decide),
   (decision_always_defined (chars "no recommendation here") sdSample).2.2 (by decide)⟩

/-- C6 counterexample: the reply `"CONFIDENCE: 7.5"` stores confidence
`15/2`, whose denominator is 2 — inside `[1, 10]` but not an integer value. -/
theorem confidence_integer_counterexample :
    (parse_binary_response (chars "CONFIDENCE: 7.5") sdSample).confidence = 15 / 2
    ∧ ((parse_binary_response (chars "CONFIDENCE: 7.5") sdSample).confidence).den = 2 := by
  refine ⟨?_, ?_⟩ <;> exact of_decide_eq_true (by with_unfolding_all rfl)

/-- C6 (amended): the stored confidence is always a number in `[1, 10]`
(clamped, but not necessarily integral): values above 10 clamp to 10, values
below 1 clamp to 1, and an unparseable confidence keeps the default 5 without
raising. -/
theorem confidence_clamped_amended (text : PyStr) (sd : StockInfo) :
    (1 ≤ (parse_binary_response text sd).confidence
      ∧ (parse_binary_response text sd).confidence ≤ 10)
    ∧ (parse_binary_response (chars "CONFIDENCE: 12") sdSample).confidence = 10
    ∧ (parse_binary_response (chars "CONFIDENCE: 0.5") sdSample).confidence = 1
    ∧ (parse_binary_response (chars "CONFIDENCE: ABC") sdSample).confidence = 5 := by
  refine ⟨parse_conf_range text sd, ?_, ?_, ?_⟩ <;>
    exact of_decide_eq_true (by with_unfolding_all rfl)

/-- C6 witness: instantiation of the clamping bound at a concrete reply. -/
theorem confidence_clamped_amended_witness :
    1 ≤ (parse_binary_response (chars "CONFIDENCE: 3") sdSample).confidence
    ∧ (parse_binary_response (chars "CONFIDENCE: 3") sdSample).confidence ≤ 10 :=
  (confidence_clamped_amended (chars "CONFIDENCE: 3") sdSample).1

/-- C7: discovery-mode extraction always yields a duplicate-free list of at
most `count` ticker-shaped tokens (nonempty, purely alphabetic, length at
most 5); when tokens survive, the result is a subsequence of the valid-token
stream (first-seen order preserved); when none survive, the result is the
default list truncated to `count`. -/
theorem discovery_invariants (text : PyStr) (count : ℕ) :
    (extractSymbols text count).Nodup
    ∧ (extractSymbols text count).length ≤ count
    ∧ (∀ s ∈ extractSymbols text count,
        pyIsAlpha s = true ∧ 1 ≤ s.length ∧ s.length ≤ 5)
    ∧ ((pyDedup (validTokens text)).take count ≠ [] →
        List.Sublist (extractSymbols text count) (validTokens text))
    ∧ ((pyDedup (validTokens text)).take count = [] →
        extractSymbols text count = DEFAULT_STOCKS.take count) := by
  unfold extractSymbols
  by_cases h : (pyDedup (validTokens text)).take count = []
  · rw [if_pos h]
    refine ⟨?_, ?_, ?_, ?_, ?_⟩
    · exact List.Nodup.sublist (List.take_sublist _ _) DEFAULT_STOCKS_nodup
    · exact List.length_take_le count _
    · intro s hs
      exact DEFAULT_STOCKS_shape s (List.mem_of_mem_take hs)
    · intro hne
      exact absurd h hne
    · intro _
      rfl
  · rw [if_neg h]
    have hsub : List.Sublist ((pyDedup (validTokens text)).take count)
        (validTokens text) :=
      (List.take_sublist _ _).trans (pyDedup_sublist _)
    refine ⟨?_, ?_, ?_, ?_, ?_⟩
    · exact List.Nodup.sublist (List.take_sublist _ _) (pyDedup_nodup _)
    · exact List.length_take_le count _
    · intro s hs
      exact validTokens_shape text s (hsub.subset hs)
    · intro _
      exact hsub
    · intro heq
      exact absurd heq h

/-- C7 witness: a text where tokens survive (order-preserving subsequence
conclusion) and a text where none do (fallback conclusion). -/
theorem discovery_invariants_witness :
    List.Sublist (extractSymbols (chars "Top picks: AAPL,MSFT,AAPL,TOOLONG") 3)
      (validTokens (chars "Top picks: AAPL,MSFT,AAPL,TOOLONG"))
    ∧ extractSymbols (chars "nothing useful") 3 = DEFAULT_STOCKS.take 3 :=
  ⟨(discovery_invariants (chars "Top picks: AAPL,MSFT,AAPL,TOOLONG") 3).2.2.2.1
      (by decide),
   (discovery_invariants (chars "nothing useful") 3).2.2.2.2 (by decide)⟩

/-- C8: decision-mode parsing never lets an exception escape: the line loop
finishes with no pending exception on every input, the structured record (all
schema fields) is returned, and the raw reply text is retained both as the
`reasoning` field and as the attached `raw_response`. -/
theorem parser_never_raises (text : PyStr) (sd : StockInfo) :
    (runLines (pySplitLines (pyUpper text)) (initResult text sd)).2 = none
    ∧ (attachRawResponse text sd).raw_response = text
    ∧ (attachRawResponse text sd).reasoning = text := by
  refine ⟨runLines_no_error _ _, rfl, ?_⟩
  show (parse_binary_response text sd).reasoning = text
  exact parse_reasoning_eq text sd

/-- C8 witness: instantiation at a reply consisting of a bare label. -/
theorem parser_never_raises_witness :
    (runLines (pySplitLines (pyUpper (chars "DECISION:")))
      (initResult (chars "DECISION:") sdSample)).2 = none :=
  (parser_never_raises (chars "DECISION:") sdSample).1

/-- The two-line catalyst/timeframe example. -/
def catalystExample : PyStr := chars "CATALYST: strong earnings\nTIMEFRAME: 2-3 days"

/-- C10: field extraction happens on an uppercased copy of the reply, so the
stored catalyst and timeframe are the uppercased source text (e.g. catalyst
`"STRONG EARNINGS"`, timeframe `"2-3 DAYS"`), while the reasoning field keeps
the original-case full text. -/
theorem uppercase_fields_parse (text : PyStr) (sd : StockInfo) :
    ((parse_binary_response text sd).reasoning = text)
    ∧ (parse_binary_response catalystExample sdSample).catalyst
        = chars "STRONG EARNINGS"
    ∧ (parse_binary_response catalystExample sdSample).timeframe = chars "2-3 DAYS"
    ∧ (parse_binary_response catalystExample sdSample).reasoning = catalystExample := by
  refine ⟨parse_reasoning_eq text sd, ?_, ?_, ?_⟩ <;>
    exact of_decide_eq_true (by with_unfolding_all rfl)

/-- C10 witness: the original-case reasoning retention at a concrete reply. -/
theorem uppercase_fields_parse_witness :
    (parse_binary_response (chars "Mixed Case Reply") sdSample).reasoning
      = chars "Mixed Case Reply" :=
  (uppercase_fields_parse (chars "Mixed Case Reply") sdSample).1

end StockSpec
